import Mathlib

/-!
# Activity Telemetry & Classification Pipeline — verification development

Shallow embedding of the core of the `reflections` desktop coaching app:

* the atomic `insert_activity_stat` SQL function (migration file) that maintains
  the `seq_time` counter for the `stats` table;
* an interleaving model of two concurrent `insert_activity_stat` transactions
  under the per-email advisory lock;
* a small-step event-loop model of the Electron main process
  (`startScreenCapture` / `stopScreenCapture` / `analyzeScreenshotWithGemini` /
  `setScreenCaptureInterval` / `getTaskStats`), where each atomic segment
  between `await` points is one step.
-/

namespace Reflections

/-! ## The `stats` table and `insert_activity_stat`

One row of the `stats` table, in the columns used by `insert_activity_stat`
(`created_at` is represented by the position in the store list: records are
appended in creation order, so "ORDER BY created_at DESC LIMIT 1" is the last
matching element). -/

structure StatsRecord where
  email : String
  rec_description : String
  on_goal : Bool
  seconds : Int
  seq_time : Int
  task : String
deriving Repr, DecidableEq

/-- `SELECT seq_time FROM stats WHERE email = p_email ORDER BY created_at DESC LIMIT 1`:
the most recent record for this email, if any. -/
def mostRecentFor (store : List StatsRecord) (email : String) : Option StatsRecord :=
  (store.filter (fun r => r.email = email)).getLast?

/-- The `seq_time` computation of `insert_activity_stat`:
`IF p_same_task AND v_previous_seq_time IS NOT NULL THEN v_previous_seq_time + p_seconds
 ELSE p_seconds END IF`. -/
def v_seq_time_of (v_previous_seq_time : Option Int) (p_same_task : Bool)
    (p_seconds : Int) : Int :=
  match v_previous_seq_time with
  | some prev => if p_same_task then prev + p_seconds else p_seconds
  | none => p_seconds

/-- The PL/pgSQL function `insert_activity_stat` (run atomically under
`pg_advisory_xact_lock(hashtext(p_email))`): read the most recent `seq_time`
for the email, compute the new `seq_time`, insert the new row.  Returns the
updated store together with `new_seq_time`. -/
def insert_activity_stat (store : List StatsRecord) (p_email p_description : String)
    (p_on_goal : Bool) (p_seconds : Int) (p_task : String) (p_same_task : Bool) :
    List StatsRecord × Int :=
  let v_previous_seq_time : Option Int :=
    (mostRecentFor store p_email).map (fun r => r.seq_time)
  let v_seq_time : Int := v_seq_time_of v_previous_seq_time p_same_task p_seconds
  (store ++ [{ email := p_email, rec_description := p_description, on_goal := p_on_goal,
               seconds := p_seconds, seq_time := v_seq_time, task := p_task }],
   v_seq_time)

/-- `n` consecutive `insert_activity_stat` calls for the same owner with
`p_same_task = true` and constant `p_seconds`. -/
def insertSameTaskN (e d : String) (g : Bool) (s : Int) (t : String)
    (store : List StatsRecord) : Nat → List StatsRecord
  | 0 => store
  | n + 1 =>
      (insert_activity_stat (insertSameTaskN e d g s t store n) e d g s t true).1

/-- The record produced by the `k`-th (0-based) same-task insert. -/
def sameTaskRec (e d : String) (g : Bool) (s : Int) (t : String) (k : Nat) :
    StatsRecord :=
  { email := e, rec_description := d, on_goal := g, seconds := s,
    seq_time := ((k : Int) + 1) * s, task := t }

lemma insertSameTaskN_filter (e d : String) (g : Bool) (s : Int) (t : String)
    (store : List StatsRecord)
    (hempty : store.filter (fun r => r.email = e) = []) :
    ∀ n, (insertSameTaskN e d g s t store n).filter (fun r => r.email = e)
      = (List.range n).map (sameTaskRec e d g s t) := by
  intro n
  induction n with
  | zero => simpa [insertSameTaskN] using hempty
  | succ m ih =>
      have hstep : insertSameTaskN e d g s t store (m + 1)
          = insertSameTaskN e d g s t store m ++
            [{ email := e, rec_description := d, on_goal := g, seconds := s,
               seq_time := v_seq_time_of
                 ((mostRecentFor (insertSameTaskN e d g s t store m) e).map
                   (fun r => r.seq_time)) true s,
               task := t }] := rfl
      have hmost : mostRecentFor (insertSameTaskN e d g s t store m) e
          = ((List.range m).map (sameTaskRec e d g s t)).getLast? := by
        unfold mostRecentFor
        rw [ih]
      have hseq : v_seq_time_of
          ((((List.range m).map (sameTaskRec e d g s t)).getLast?).map
            (fun r => r.seq_time)) true s = ((m : Int) + 1) * s := by
        cases m with
        | zero => norm_num [v_seq_time_of]
        | succ m' =>
            have hlast : ((List.range (m' + 1)).map (sameTaskRec e d g s t)).getLast?
                = some (sameTaskRec e d g s t m') := by
              rw [List.range_succ, List.map_append]
              simp
            have hmap : (some (sameTaskRec e d g s t m')).map
                (fun r : StatsRecord => r.seq_time) = some (((m' : Int) + 1) * s) := rfl
            have hv : v_seq_time_of (some (((m' : Int) + 1) * s)) true s
                = ((m' : Int) + 1) * s + s := rfl
            rw [hlast, hmap, hv]
            push_cast
            ring
      rw [hstep, List.filter_append, ih, hmost, hseq, List.range_succ, List.map_append]
      congr 1
      simp [sameTaskRec]

/-- **C1.** The stored `seq_time` follows the recurrence of
`insert_activity_stat`: with a prior record and `p_same_task = true` it is
`prior.seq_time + p_seconds`; with `p_same_task = false`, or with no prior
record, it is `p_seconds`.  Consequently, starting from a store with no record
for owner `e`, after `n` same-task inserts of constant `p_seconds = s` the
`k`-th record (0-based index `k`) for that owner has `seq_time = (k+1)·s`. -/
theorem seq_time_recurrence (e d : String) (g : Bool) (s : Int) (t : String)
    (store : List StatsRecord) (n k : Nat)
    (hempty : store.filter (fun r => r.email = e) = []) (hk : k < n) :
    (((insertSameTaskN e d g s t store n).filter (fun r => r.email = e))[k]?
        = some { email := e, rec_description := d, on_goal := g, seconds := s,
                 seq_time := ((k : Int) + 1) * s, task := t }) ∧
    (∀ store2 prior, mostRecentFor store2 e = some prior →
        (insert_activity_stat store2 e d g s t true).2 = prior.seq_time + s) ∧
    (∀ store2, (insert_activity_stat store2 e d g s t false).2 = s) ∧
    (∀ store2, mostRecentFor store2 e = none →
        (insert_activity_stat store2 e d g s t true).2 = s) := by
  refine ⟨?_, ?_, ?_, ?_⟩
  · rw [insertSameTaskN_filter e d g s t store hempty n]
    rw [List.getElem?_map, List.getElem?_range hk]
    rfl
  · intro store2 prior hmost
    simp [insert_activity_stat, hmost, v_seq_time_of]
  · intro store2
    cases hmost : mostRecentFor store2 e <;>
      simp [insert_activity_stat, hmost, v_seq_time_of]
  · intro store2 hmost
    simp [insert_activity_stat, hmost, v_seq_time_of]

/-- Witness for `seq_time_recurrence` at `e = "a"`, `s = 7`, `n = 3`, `k = 2`. -/
theorem seq_time_recurrence_witness :
    (([] : List StatsRecord).filter (fun r => r.email = "a") = [] ∧ 2 < 3) ∧
    ((insertSameTaskN "a" "x" true 7 "Analytical" [] 3).filter
        (fun r => r.email = "a"))[2]?
      = some { email := "a", rec_description := "x", on_goal := true, seconds := 7,
               seq_time := 21, task := "Analytical" } := by
  refine ⟨⟨rfl, by norm_num⟩, ?_⟩
  have h := (seq_time_recurrence "a" "x" true 7 "Analytical" [] 3 2 rfl
    (by norm_num)).1
  simpa using h

/-! ## `getTaskStats` — session-window aggregation

The renderer-facing aggregation over the `stats` table.  A fetched row carries
the selected columns `task, seconds, created_at`; `created_at` is a timestamp
(modelled as `Int`). -/

structure StatsRow where
  task : String
  seconds : Int
  created_at : Int
deriving Repr, DecidableEq

/-- One aggregate entry of `getTaskStats`.  The source also returns
`total_hours = total_seconds / 3600` (a JS float, derived from
`total_seconds`); floating point stays outside the embedding. -/
structure TaskAgg where
  task : String
  count : Nat
  total_seconds : Int
deriving Repr, DecidableEq

/-- The fixed category list of `getTaskStats` (the source builds it twice,
identically, for the empty and the non-empty branch). -/
def categories : List String :=
  ["Analytical", "Conversation", "Creative", "Reading", "Social Media", "Watching"]

/-- The optional session-window bounds: `gte('created_at', sinceIso)` and
`lte('created_at', untilIso)`, each applied only when present. -/
def inBounds (sinceIso untilIso : Option Int) (r : StatsRow) : Bool :=
  (match sinceIso with | some t => decide (t ≤ r.created_at) | none => true) &&
  (match untilIso with | some t => decide (r.created_at ≤ t) | none => true)

/-- `getTaskStats`: fetch rows filtered by the optional session-window bounds;
if no rows, return a zero-filled entry per category; otherwise count rows and
sum `seconds` per category (rows whose `task` is not in `categories` are
skipped by the `byTask[task]` guard). -/
def getTaskStats (rows : List StatsRow) (sinceIso untilIso : Option Int) :
    List TaskAgg :=
  let filtered := rows.filter (inBounds sinceIso untilIso)
  if filtered.isEmpty then
    categories.map (fun task => { task := task, count := 0, total_seconds := 0 })
  else
    categories.map (fun task =>
      let rs := filtered.filter (fun r => r.task = task)
      { task := task, count := rs.length,
        total_seconds := (rs.map (fun r => r.seconds)).sum })

/-- **C6 (counterexample).** As stated the claim is false: `getTaskStats`
returns no aggregate entry for the category `Other` — with no data it returns
six entries, not one per member of the seven-value task enum — and a record
classified `Other` is counted in no entry at all. -/
theorem task_stats_counterexample :
    ((getTaskStats [] none none).map (fun a => a.task)).contains "Other" = false ∧
    (getTaskStats [] none none).length = 6 ∧
    (getTaskStats [{ task := "Other", seconds := 5, created_at := 0 }] none none).map
        (fun a => (a.count, a.total_seconds))
      = [(0, 0), (0, 0), (0, 0), (0, 0), (0, 0), (0, 0)] := by
  refine ⟨by decide, by decide, by decide⟩

/-- **C6 (amended).** For every choice of optional time bounds, `getTaskStats`
returns exactly one aggregate entry per category of its fixed six-category list
`[Analytical, Conversation, Creative, Reading, Social Media, Watching]`
(zero-filled when no record matches, including when there is no data at all);
each entry's `count` and `total_seconds` equal the number of in-window records
of that category and the sum of their `seconds`.  Records with a task outside
the list (such as `Other`) contribute to no entry, and the query is not
filtered by owner. -/
theorem task_stats_amended (rows : List StatsRow) (sinceIso untilIso : Option Int) :
    ((getTaskStats rows sinceIso untilIso).map (fun a => a.task) = categories) ∧
    ∀ a ∈ getTaskStats rows sinceIso untilIso,
      a.count = ((rows.filter (inBounds sinceIso untilIso)).filter
          (fun r => r.task = a.task)).length ∧
      a.total_seconds = (((rows.filter (inBounds sinceIso untilIso)).filter
          (fun r => r.task = a.task)).map (fun r => r.seconds)).sum := by
  unfold getTaskStats
  by_cases h : (rows.filter (inBounds sinceIso untilIso)).isEmpty
  · rw [if_pos h]
    have hnil : rows.filter (inBounds sinceIso untilIso) = [] :=
      List.isEmpty_iff.mp h
    constructor
    · rw [List.map_map]
      exact List.map_id categories
    · intro a ha
      rw [List.mem_map] at ha
      obtain ⟨c, _, rfl⟩ := ha
      simp [hnil]
  · rw [if_neg h]
    constructor
    · rw [List.map_map]
      exact List.map_id categories
    · intro a ha
      rw [List.mem_map] at ha
      obtain ⟨c, _, rfl⟩ := ha
      exact ⟨rfl, rfl⟩

/-! ## Event-loop model of the capture scheduler and classification gate

The Electron main process is single-threaded: the code between two `await`
points runs atomically, and the event loop interleaves those segments.  Each
segment of `startScreenCapture`, `stopScreenCapture`,
`analyzeScreenshotWithGemini` and the insert rpc is one labelled step below;
the label carries the data the awaited call returned (permission status,
classifier response, insert success).  The screenshot file path and image
bytes do not influence any claim and are elided from the process state. -/

/-- The structured fields returned by the `check_user_focus` function call. -/
structure GeminiArgs where
  is_locked_in : Bool
  user_activity_description : String
  same_task : Bool
  task_category : String
deriving Repr, DecidableEq

/-- How one `analyzeScreenshotWithGemini` invocation ended. -/
inductive AnalyzeOutcome
  | skippedPopup    -- popup open at entry
  | skippedBusy     -- `isAnalyzing` already true at entry (single-flight guard)
  | skippedNoAI     -- `genAI` not initialized
  | abortedBefore   -- `stopRequested` observed before the Gemini call
  | errored         -- Gemini call threw (API error or 30 s timeout)
  | noCall          -- response carried no `check_user_focus` function call
  | abortedAfter    -- `stopRequested` observed right after the Gemini call
  | discarded       -- capture no longer active at the pre-insert re-check
  | completed       -- result processed (insert attempted and/or notification)
deriving Repr, DecidableEq

/-- The suspension point an `analyzeScreenshotWithGemini` invocation sits at.
`awaitInsert` carries the email and `captureSettings.interval` captured when
the rpc was issued, as the source does. -/
inductive AnalyzePhase
  | entry
  | awaitPrior
  | awaitGemini
  | awaitInsert (email : String) (secs : Int) (args : GeminiArgs)
  | done (o : AnalyzeOutcome)
deriving Repr, DecidableEq

/-- The mutable fields of `captureSettings`. -/
structure CaptureSettingsS where
  isCapturing : Bool
  interval : Int
  lastCaptureTime : Option Int
  sessionStartAt : Option Int
  sessionEndAt : Option Int
deriving Repr, DecidableEq

/-- The shared mutable state of the main process, plus observation counters
(`geminiCalls`, `notificationsSent`, `broadcasts`, `warnLogs`,
`stopsCompleted`) recording the externally visible actions. -/
structure SysState where
  settings : CaptureSettingsS
  timer : Option Int              -- `captureInterval`: period of the repeating timer
  isAnalyzing : Bool
  stopRequested : Bool
  userEmail : Option String
  hasSupabase : Bool
  hasGenAI : Bool
  popupOpen : Bool
  store : List StatsRecord
  geminiCalls : Nat
  notificationsSent : Nat
  broadcasts : Nat
  warnLogs : Nat
  stopPolls : Option Nat          -- `some k` while stopScreenCapture is polling
  stopsCompleted : Nat
  startPending : Bool             -- start() past validation, timer not yet set
  procs : List AnalyzePhase
deriving Repr, DecidableEq

/-- Replace the phase of invocation `i`. -/
def setProc (s : SysState) (i : Nat) (ph : AnalyzePhase) : SysState :=
  { s with procs := s.procs.set i ph }

/-- Entry segment of `analyzeScreenshotWithGemini`, up to its first `await`:
popup check, single-flight guard, `genAI` check, `isAnalyzing = true`,
`stopRequested` check, then either the prior-activity fetch (when a user is
signed in) or the Gemini request itself. -/
def entrySeg (s : SysState) (i : Nat) : SysState :=
  if s.popupOpen then setProc s i (.done .skippedPopup)
  else if s.isAnalyzing then setProc s i (.done .skippedBusy)
  else if s.hasGenAI = false then setProc s i (.done .skippedNoAI)
  else if s.stopRequested then
    -- isAnalyzing is set, the abort check fires, finally resets it: net unchanged
    { setProc s i (.done .abortedBefore) with isAnalyzing := false }
  else
    match s.userEmail with
    | some _ => { setProc s i .awaitPrior with isAnalyzing := true }
    | none => { setProc s i .awaitGemini with
                  isAnalyzing := true, geminiCalls := s.geminiCalls + 1 }

/-- Segment after the prior-activity fetch returns: build the prompt and issue
the Gemini request. -/
def priorSeg (s : SysState) (i : Nat) : SysState :=
  { setProc s i .awaitGemini with geminiCalls := s.geminiCalls + 1 }

/-- Segment after the Gemini call settles.  `res = none`: the race rejected
(API error or 30 s timeout), caught, `finally` releases the guard.
`res = some none`: no `check_user_focus` call in the response.
`res = some (some args)`: re-check `stopRequested`, then the pre-insert
re-check of `isCapturing`/`stopRequested`; then issue the insert rpc when a
user is signed in and Supabase is initialized, else log and notify in place. -/
def geminiSeg (s : SysState) (i : Nat) (res : Option (Option GeminiArgs)) :
    SysState :=
  match res with
  | none => { setProc s i (.done .errored) with isAnalyzing := false }
  | some none => { setProc s i (.done .noCall) with isAnalyzing := false }
  | some (some args) =>
      if s.stopRequested then
        { setProc s i (.done .abortedAfter) with isAnalyzing := false }
      else if s.settings.isCapturing = false || s.stopRequested then
        { setProc s i (.done .discarded) with isAnalyzing := false }
      else
        match s.userEmail, s.hasSupabase with
        | some e, true => setProc s i (.awaitInsert e s.settings.interval args)
        | _, _ =>
            let s1 := { setProc s i (.done .completed) with isAnalyzing := false }
            if args.is_locked_in = false then
              { s1 with notificationsSent := s1.notificationsSent + 1,
                        popupOpen := true }
            else s1

/-- Segment after the insert rpc settles; the server-side row insert of a
successful rpc is recorded here.  On success, broadcast `stats-updated`; on
`insertError` or a thrown `statsError`, only log.  Either way the off-task
notification fires afterwards, and `finally` releases the guard. -/
def insertSeg (s : SysState) (i : Nat) (email : String) (secs : Int)
    (args : GeminiArgs) (ok : Bool) : SysState :=
  let s1 :=
    if ok then
      { s with store := (insert_activity_stat s.store email
                          args.user_activity_description args.is_locked_in
                          secs args.task_category args.same_task).1,
               broadcasts := s.broadcasts + 1 }
    else s
  let s2 :=
    if args.is_locked_in = false then
      { s1 with notificationsSent := s1.notificationsSent + 1, popupOpen := true }
    else s1
  { setProc s2 i (.done .completed) with isAnalyzing := false }

/-- How `startScreenCapture` returned. -/
inductive StartResult
  | permissionDenied
  | invalidInterval
  | started
deriving Repr, DecidableEq

def startSettings (cs : CaptureSettingsS) (interval : Int) (now : Int) :
    CaptureSettingsS :=
  { cs with interval := interval, isCapturing := true,
            sessionStartAt := some now, sessionEndAt := none }

/-- `startScreenCapture` after the permission check settles: on missing
permission, fail with no state change; otherwise cancel any existing timer
(the source does this BEFORE validating the interval, so the cancelled timer
appears in both remaining branches), reject `interval < 1`, else reset
`stopRequested`, open the session window, persist settings and fire the first
capture cycle (spawned as a fresh invocation). -/
def startCallSeg (s : SysState) (perm : Bool) (interval : Int) (now : Int) :
    SysState × StartResult :=
  if perm = false then (s, .permissionDenied)
  else if interval < 1 then ({ s with timer := none }, .invalidInterval)
  else
    ({ s with timer := none, stopRequested := false,
              settings := startSettings s.settings interval now,
              procs := s.procs ++ [.entry], startPending := true }, .started)

/-- First segment of `stopScreenCapture`, before its polling loop: cancel the
timer, close the session window, raise the cooperative abort flag, persist
settings. -/
def stopBeginSeg (s : SysState) (now : Int) : SysState :=
  let st := { s.settings with isCapturing := false, sessionEndAt := some now }
  { s with timer := none, settings := st, stopRequested := true,
           stopPolls := some 0 }

/-- The polling-loop condition of `stopScreenCapture`:
`isAnalyzing && (Date.now() - startTime) < maxWaitMs`, with `maxWaitMs = 5000`
and one 100 ms sleep per iteration, so elapsed time is `100·k` after `k`
iterations. -/
def stopPollCond (s : SysState) (k : Nat) : Bool :=
  s.isAnalyzing && decide (100 * k < 5000)

/-- Final segment of `stopScreenCapture`: warn if the analysis is still
running after the grace period, broadcast `stats-updated`, return
(`stopRequested` is deliberately NOT reset here). -/
def stopFinishSeg (s : SysState) : SysState :=
  { s with warnLogs := s.warnLogs + (if s.isAnalyzing then 1 else 0),
           broadcasts := s.broadcasts + 1,
           stopPolls := none,
           stopsCompleted := s.stopsCompleted + 1 }

/-- Event-loop events: each is one atomic segment, carrying the data returned
by the `await` it resumes from. -/
inductive Ev
  | spawnAnalyze                                   -- a capture cycle reaches the gate
  | runEntry (i : Nat)
  | priorDone (i : Nat)
  | geminiDone (i : Nat) (res : Option (Option GeminiArgs))
  | insertDone (i : Nat) (ok : Bool)
  | startCall (perm : Bool) (interval : Int) (now : Int)
  | startFinish                                    -- start() sets the repeating timer
  | stopBegin (now : Int)
  | stopPoll
  | stopFinish
  | closePopup
deriving Repr, DecidableEq

/-- One step of the event loop: `none` when the event is not enabled in this
state. -/
def stepFn (e : Ev) (s : SysState) : Option SysState :=
  match e with
  | .spawnAnalyze => some { s with procs := s.procs ++ [.entry] }
  | .runEntry i =>
      match s.procs[i]? with
      | some .entry => some (entrySeg s i)
      | _ => none
  | .priorDone i =>
      match s.procs[i]? with
      | some .awaitPrior => some (priorSeg s i)
      | _ => none
  | .geminiDone i res =>
      match s.procs[i]? with
      | some .awaitGemini => some (geminiSeg s i res)
      | _ => none
  | .insertDone i ok =>
      match s.procs[i]? with
      | some (.awaitInsert email secs args) =>
          some (insertSeg s i email secs args ok)
      | _ => none
  | .startCall perm interval now => some (startCallSeg s perm interval now).1
  | .startFinish =>
      if s.startPending then
        some { s with timer := some s.settings.interval, startPending := false }
      else none
  | .stopBegin now =>
      match s.stopPolls with
      | none => some (stopBeginSeg s now)
      | some _ => none
  | .stopPoll =>
      match s.stopPolls with
      | some k =>
          if stopPollCond s k then some { s with stopPolls := some (k + 1) }
          else none
      | none => none
  | .stopFinish =>
      match s.stopPolls with
      | some k =>
          if stopPollCond s k then none else some (stopFinishSeg s)
      | none => none
  | .closePopup => some { s with popupOpen := false }

/-- Run a list of events from a state; fails if any event is not enabled. -/
def runTrace : List Ev → SysState → Option SysState
  | [], s => some s
  | e :: es, s =>
      match stepFn e s with
      | some s1 => runTrace es s1
      | none => none

/-- Process state at startup (after `loadSettings` found no saved settings):
capture off, default interval 18 s, flags down, empty store. -/
def initState (ue : Option String) (hsb hga : Bool) : SysState :=
  { settings := { isCapturing := false, interval := 18, lastCaptureTime := none,
                  sessionStartAt := none, sessionEndAt := none },
    timer := none, isAnalyzing := false, stopRequested := false,
    userEmail := ue, hasSupabase := hsb, hasGenAI := hga, popupOpen := false,
    store := [], geminiCalls := 0, notificationsSent := 0, broadcasts := 0,
    warnLogs := 0, stopPolls := none, stopsCompleted := 0, startPending := false,
    procs := [] }

/-- An invocation holding the single-flight guard: past entry, not yet done. -/
def inFlightB : AnalyzePhase → Bool
  | .awaitPrior => true
  | .awaitGemini => true
  | .awaitInsert _ _ _ => true
  | _ => false

lemma setProc_procs_getElem (s : SysState) (i : Nat) (ph : AnalyzePhase)
    (h : i < s.procs.length) : (setProc s i ph).procs[i]? = some ph := by
  simp [setProc, List.getElem?_set, h]

lemma countP_set_add (p : α → Bool) :
    ∀ (l : List α) (i : Nat) (a b : α), l[i]? = some b →
      (l.set i a).countP p + (if p b then 1 else 0)
        = l.countP p + (if p a then 1 else 0) := by
  intro l
  induction l with
  | nil => intro i a b h; simp at h
  | cons x xs ih =>
      intro i a b h
      cases i with
      | zero =>
          simp only [List.getElem?_cons_zero, Option.some.injEq] at h
          subst h
          simp only [List.set_cons_zero, List.countP_cons]
          omega
      | succ j =>
          simp only [List.getElem?_cons_succ] at h
          simp only [List.set_cons_succ, List.countP_cons]
          have := ih j a b h
          omega

lemma countP_pos_of_getElem (p : α → Bool) (l : List α) (i : Nat) (a : α)
    (h : l[i]? = some a) (hp : p a = true) : 1 ≤ l.countP p := by
  have := List.countP_pos_iff.mpr ⟨a, List.getElem?_mem h, hp⟩
  omega

/-! ### C7 — `start` with an invalid interval -/

/-- A state amid a capture session: running 10 s timer, capture on. -/
def runningState : SysState :=
  { initState (some "a") true true with
      timer := some 10,
      settings := { isCapturing := true, interval := 10, lastCaptureTime := none,
                    sessionStartAt := some 0, sessionEndAt := none } }

/-- **C7 (counterexample).** As stated the claim is false: `startScreenCapture`
clears any running timer BEFORE validating the interval, so a rejected
`start(0)` does change state — the running timer is cancelled (while
`isCapturing` stays true). -/
theorem start_invalid_counterexample :
    (startCallSeg runningState true 0 5).2 = StartResult.invalidInterval ∧
    runningState.timer = some 10 ∧
    (startCallSeg runningState true 0 5).1.timer = none ∧
    (startCallSeg runningState true 0 5).1.settings.isCapturing = true := by
  refine ⟨rfl, rfl, rfl, rfl⟩

/-- **C7 (amended).** A `start` call with `intervalSeconds < 1` (permission
granted) is rejected synchronously with `InvalidInterval`; the capture-session
fields, stored settings, stats timeline and flags are exactly as before and no
record is added — but any running repeating timer has been cancelled, because
the source clears it before validating. -/
theorem start_invalid_amended (s : SysState) (n now : Int) (hn : n < 1) :
    (startCallSeg s true n now).2 = StartResult.invalidInterval ∧
    (startCallSeg s true n now).1 = { s with timer := none } := by
  unfold startCallSeg
  rw [if_neg (by simp : ¬(true = false)), if_pos hn]
  exact ⟨rfl, rfl⟩

/-- Witness for `start_invalid_amended` at `n = 0`. -/
theorem start_invalid_amended_witness :
    ((0 : Int) < 1) ∧
    ((startCallSeg (initState none true true) true 0 5).2
        = StartResult.invalidInterval ∧
     (startCallSeg (initState none true true) true 0 5).1
        = { initState none true true with timer := none }) :=
  ⟨by norm_num, start_invalid_amended (initState none true true) 0 5 (by norm_num)⟩

/-! ### C5 — the `stop` contract -/

lemma pollRun (j : Nat) : ∀ (s : SysState) (k : Nat), s.isAnalyzing = true →
    s.stopPolls = some k → k + j ≤ 50 →
    runTrace (List.replicate j Ev.stopPoll) s
      = some { s with stopPolls := some (k + j) } := by
  induction j with
  | zero =>
      intro s k hA hk hkj
      cases s
      simp only [List.replicate, runTrace, Nat.add_zero]
      simp_all
  | succ m ih =>
      intro s k hA hk hkj
      have hc : stopPollCond s k = true := by
        unfold stopPollCond
        rw [hA]
        simp only [Bool.true_and, decide_eq_true_eq]
        omega
      rw [List.replicate_succ]
      simp only [runTrace, stepFn, hk, hc, if_true]
      have hrec := ih { s with stopPolls := some (k + 1) } (k + 1) hA rfl (by omega)
      rw [hrec]
      have : k + 1 + m = k + (m + 1) := by omega
      rw [this]

/-- **C5.** `stopScreenCapture`: the first segment cancels the repeating
timer, sets `isCapturing = false` and `sessionEndAt = now`, and raises the
cooperative abort flag; then the polling loop runs at most 50 iterations of
100 ms (a grace period of at most 5 s) and in all cases the call finishes —
logging a warning exactly when the classification is still in flight — and
broadcasts a stats-changed event to all windows. -/
theorem stop_contract (s s₁ : SysState) (now : Int)
    (h : stepFn (Ev.stopBegin now) s = some s₁) :
    s₁.timer = none ∧ s₁.settings.isCapturing = false ∧
    s₁.settings.sessionEndAt = some now ∧ s₁.stopRequested = true ∧
    ∃ ls s₂, (∀ l ∈ ls, l = Ev.stopPoll ∨ l = Ev.stopFinish) ∧
      ls.countP (fun l => decide (l = Ev.stopPoll)) ≤ 50 ∧
      runTrace ls s₁ = some s₂ ∧
      s₂.stopsCompleted = s.stopsCompleted + 1 ∧
      s₂.broadcasts = s.broadcasts + 1 ∧
      (s.isAnalyzing = true → s₂.warnLogs = s.warnLogs + 1) ∧
      (s.isAnalyzing = false → s₂.warnLogs = s.warnLogs) ∧
      s₂.stopPolls = none := by
  have hnone : s.stopPolls = none := by
    cases hsp : s.stopPolls with
    | none => rfl
    | some k => rw [stepFn, hsp] at h; exact absurd h (by simp)
  have hs₁ : s₁ = stopBeginSeg s now := by
    rw [stepFn, hnone] at h
    exact (Option.some.injEq _ _ ▸ h).symm
  subst hs₁
  refine ⟨rfl, rfl, rfl, rfl, ?_⟩
  cases hA : s.isAnalyzing with
  | false =>
      refine ⟨[Ev.stopFinish], stopFinishSeg (stopBeginSeg s now), ?_, ?_, ?_, ?_, ?_, ?_, ?_, ?_⟩
      · intro l hl
        simp at hl
        exact Or.inr hl
      · simp
      · have hc : stopPollCond (stopBeginSeg s now) 0 = false := by
          unfold stopPollCond stopBeginSeg
          simp [hA]
        have hsp : (stopBeginSeg s now).stopPolls = some 0 := rfl
        simp [runTrace, stepFn, hsp, hc]
      · rfl
      · rfl
      · intro hcontra
        exact absurd hcontra (by simp)
      · intro _
        simp [stopFinishSeg, stopBeginSeg, hA]
      · rfl
  | true =>
      have hrun := pollRun 50 (stopBeginSeg s now) 0 hA rfl (by omega)
      refine ⟨List.replicate 50 Ev.stopPoll ++ [Ev.stopFinish],
              stopFinishSeg { stopBeginSeg s now with stopPolls := some 50 },
              ?_, ?_, ?_, ?_, ?_, ?_, ?_, ?_⟩
      · intro l hl
        rcases List.mem_append.mp hl with h1 | h2
        · exact Or.inl (List.eq_of_mem_replicate h1)
        · simp at h2
          exact Or.inr h2
      · rw [List.countP_append]
        have h1 : (List.replicate 50 Ev.stopPoll).countP
            (fun l => decide (l = Ev.stopPoll)) = 50 := by decide
        have h2 : ([Ev.stopFinish] : List Ev).countP
            (fun l => decide (l = Ev.stopPoll)) = 0 := by decide
        omega
      · have hsplit : runTrace (List.replicate 50 Ev.stopPoll ++ [Ev.stopFinish])
            (stopBeginSeg s now)
            = runTrace [Ev.stopFinish] { stopBeginSeg s now with stopPolls := some 50 } := by
          have : ∀ (l1 l2 : List Ev) (a b : SysState), runTrace l1 a = some b →
              runTrace (l1 ++ l2) a = runTrace l2 b := by
            intro l1
            induction l1 with
            | nil =>
                intro l2 a b hab
                simp only [runTrace] at hab
                cases hab
                rfl
            | cons x xs ihx =>
                intro l2 a b hab
                simp only [runTrace, List.cons_append] at hab ⊢
                cases hx : stepFn x a with
                | none => rw [hx] at hab; exact absurd hab (by simp)
                | some a1 => rw [hx] at hab; exact ihx l2 a1 b hab
          exact this _ _ _ _ (by simpa using hrun)
        rw [hsplit]
        have hc : stopPollCond { stopBeginSeg s now with stopPolls := some 50 } 50
            = false := by
          unfold stopPollCond
          simp
        simp only [runTrace, stepFn, hc, if_false]
        rfl
      · rfl
      · rfl
      · intro _
        simp [stopFinishSeg, stopBeginSeg, hA]
      · intro hcontra
        exact absurd hcontra (by simp)
      · rfl

/-- Witness for `stop_contract` from a quiescent running state. -/
theorem stop_contract_witness :
    stepFn (Ev.stopBegin 9) runningState = some (stopBeginSeg runningState 9) ∧
    ((stopBeginSeg runningState 9).timer = none ∧
     (stopBeginSeg runningState 9).settings.isCapturing = false ∧
     (stopBeginSeg runningState 9).settings.sessionEndAt = some 9 ∧
     (stopBeginSeg runningState 9).stopRequested = true ∧
     ∃ ls s₂, (∀ l ∈ ls, l = Ev.stopPoll ∨ l = Ev.stopFinish) ∧
       ls.countP (fun l => decide (l = Ev.stopPoll)) ≤ 50 ∧
       runTrace ls (stopBeginSeg runningState 9) = some s₂ ∧
       s₂.stopsCompleted = runningState.stopsCompleted + 1 ∧
       s₂.broadcasts = runningState.broadcasts + 1 ∧
       (runningState.isAnalyzing = true → s₂.warnLogs = runningState.warnLogs + 1) ∧
       (runningState.isAnalyzing = false → s₂.warnLogs = runningState.warnLogs) ∧
       s₂.stopPolls = none) :=
  ⟨rfl, stop_contract runningState (stopBeginSeg runningState 9) 9 rfl⟩

/-! ### C10 — the off-task notification does not depend on the store write -/

/-- **C10.** When a classification returns `is_locked_in = false` while
capture is still active and no abort is pending, the notification and popup
fire even when no record is inserted: with no signed-in user or no Supabase
client the post-Gemini segment itself notifies without touching the store, and
when the insert rpc is issued, the resume segment notifies whether or not the
insert succeeded (`ok = false` leaves the store unchanged and still
notifies). -/
theorem notification_independent_of_insert (s : SysState) (i : Nat)
    (args : GeminiArgs) (hcap : s.settings.isCapturing = true)
    (habort : s.stopRequested = false) (hoff : args.is_locked_in = false) :
    (s.userEmail = none ∨ s.hasSupabase = false →
      (geminiSeg s i (some (some args))).notificationsSent
          = s.notificationsSent + 1 ∧
      (geminiSeg s i (some (some args))).store = s.store) ∧
    (∀ e₀, s.userEmail = some e₀ → s.hasSupabase = true →
      geminiSeg s i (some (some args))
          = setProc s i (.awaitInsert e₀ s.settings.interval args)) ∧
    (∀ (s2 : SysState) (j : Nat) (e₀ : String) (secs : Int) (ok : Bool),
      (insertSeg s2 j e₀ secs args ok).notificationsSent
          = s2.notificationsSent + 1 ∧
      (insertSeg s2 j e₀ secs args false).store = s2.store) := by
  refine ⟨?_, ?_, ?_⟩
  · intro hno
    have hsplit : (geminiSeg s i (some (some args))).notificationsSent
          = s.notificationsSent + 1 ∧
        (geminiSeg s i (some (some args))).store = s.store := by
      unfold geminiSeg
      rw [habort, hcap]
      simp only [Bool.false_eq_true, if_false, Bool.false_or]
      rcases hno with h1 | h1
      · rw [h1]
        cases s.hasSupabase <;> simp [setProc, hoff]
      · rw [h1]
        cases hue : s.userEmail <;> simp [setProc, hoff]
    exact hsplit
  · intro e₀ hue hsb
    unfold geminiSeg
    rw [habort, hcap, hue, hsb]
    simp
  · intro s2 j e₀ secs ok
    constructor
    · cases ok <;> simp [insertSeg, setProc, hoff]
    · simp [insertSeg, setProc, hoff]

/-- Witness for `notification_independent_of_insert` on a capturing state with
no Supabase client. -/
theorem notification_independent_witness :
    (runningState.settings.isCapturing = true ∧ runningState.stopRequested = false ∧
      ({ is_locked_in := false, user_activity_description := "scrolling feeds",
         same_task := false, task_category := "Social Media" } : GeminiArgs).is_locked_in
        = false) ∧
    ((runningState.userEmail = none ∨ runningState.hasSupabase = false →
      (geminiSeg runningState 0 (some (some
          { is_locked_in := false, user_activity_description := "scrolling feeds",
            same_task := false, task_category := "Social Media" }))).notificationsSent
          = runningState.notificationsSent + 1 ∧
      (geminiSeg runningState 0 (some (some
          { is_locked_in := false, user_activity_description := "scrolling feeds",
            same_task := false, task_category := "Social Media" }))).store
          = runningState.store) ∧
    (∀ e₀, runningState.userEmail = some e₀ → runningState.hasSupabase = true →
      geminiSeg runningState 0 (some (some
          { is_locked_in := false, user_activity_description := "scrolling feeds",
            same_task := false, task_category := "Social Media" }))
          = setProc runningState 0 (.awaitInsert e₀ runningState.settings.interval
              { is_locked_in := false, user_activity_description := "scrolling feeds",
                same_task := false, task_category := "Social Media" })) ∧
    (∀ (s2 : SysState) (j : Nat) (e₀ : String) (secs : Int) (ok : Bool),
      (insertSeg s2 j e₀ secs
          { is_locked_in := false, user_activity_description := "scrolling feeds",
            same_task := false, task_category := "Social Media" } ok).notificationsSent
          = s2.notificationsSent + 1 ∧
      (insertSeg s2 j e₀ secs
          { is_locked_in := false, user_activity_description := "scrolling feeds",
            same_task := false, task_category := "Social Media" } false).store
          = s2.store)) :=
  ⟨⟨rfl, rfl, rfl⟩,
   notification_independent_of_insert runningState 0 _ rfl rfl rfl⟩

/-! ### C3 — the single-flight guard -/

/-- The `isAnalyzing` flag counts exactly the invocations past entry and not
yet finished. -/
def guardInv (s : SysState) : Prop :=
  s.procs.countP inFlightB = (if s.isAnalyzing then 1 else 0)

lemma countP_set_false (l : List AnalyzePhase) (i : Nat) (b a : AnalyzePhase)
    (hp : l[i]? = some b) (hb : inFlightB b = false) (ha : inFlightB a = false) :
    (l.set i a).countP inFlightB = l.countP inFlightB := by
  have h := countP_set_add inFlightB l i a b hp
  rw [hb, ha] at h
  simpa using h

lemma countP_set_up (l : List AnalyzePhase) (i : Nat) (b a : AnalyzePhase)
    (hp : l[i]? = some b) (hb : inFlightB b = false) (ha : inFlightB a = true) :
    (l.set i a).countP inFlightB = l.countP inFlightB + 1 := by
  have h := countP_set_add inFlightB l i a b hp
  rw [hb, ha] at h
  simpa using h

lemma countP_set_keep (l : List AnalyzePhase) (i : Nat) (b a : AnalyzePhase)
    (hp : l[i]? = some b) (hb : inFlightB b = true) (ha : inFlightB a = true) :
    (l.set i a).countP inFlightB = l.countP inFlightB := by
  have h := countP_set_add inFlightB l i a b hp
  rw [hb, ha] at h
  simpa using h

lemma countP_set_down (l : List AnalyzePhase) (i : Nat) (b a : AnalyzePhase)
    (hp : l[i]? = some b) (hb : inFlightB b = true) (ha : inFlightB a = false) :
    (l.set i a).countP inFlightB + 1 = l.countP inFlightB := by
  have h := countP_set_add inFlightB l i a b hp
  rw [hb, ha] at h
  simpa using h

lemma bool_eq_false_of_ne_true {b : Bool} (h : ¬ b = true) : b = false := by
  cases b
  · rfl
  · exact absurd rfl h

lemma guardInv_entry (s : SysState) (i : Nat) (hp : s.procs[i]? = some .entry)
    (hinv : guardInv s) : guardInv (entrySeg s i) := by
  unfold guardInv at hinv ⊢
  unfold entrySeg
  by_cases h1 : s.popupOpen = true
  · rw [if_pos h1]
    simp only [setProc]
    rw [countP_set_false s.procs i _ (.done .skippedPopup) hp rfl rfl]
    exact hinv
  · rw [if_neg h1]
    by_cases h2 : s.isAnalyzing = true
    · rw [if_pos h2]
      simp only [setProc]
      rw [countP_set_false s.procs i _ (.done .skippedBusy) hp rfl rfl]
      exact hinv
    · rw [if_neg h2]
      have h2f : s.isAnalyzing = false := bool_eq_false_of_ne_true h2
      by_cases h3 : s.hasGenAI = false
      · rw [if_pos h3]
        simp only [setProc]
        rw [countP_set_false s.procs i _ (.done .skippedNoAI) hp rfl rfl]
        exact hinv
      · rw [if_neg h3]
        by_cases h4 : s.stopRequested = true
        · rw [if_pos h4]
          simp only [setProc]
          rw [countP_set_false s.procs i _ (.done .abortedBefore) hp rfl rfl]
          rw [hinv, h2f]
        · rw [if_neg h4]
          cases hue : s.userEmail with
          | some e₀ =>
              simp only [setProc]
              simp [countP_set_up s.procs i _ .awaitPrior hp rfl rfl, hinv, h2f]
          | none =>
              simp only [setProc]
              simp [countP_set_up s.procs i _ .awaitGemini hp rfl rfl, hinv, h2f]

lemma guardInv_prior (s : SysState) (i : Nat) (hp : s.procs[i]? = some .awaitPrior)
    (hinv : guardInv s) : guardInv (priorSeg s i) := by
  unfold guardInv at hinv ⊢
  unfold priorSeg
  simp only [setProc]
  rw [countP_set_keep s.procs i _ .awaitGemini hp rfl rfl]
  exact hinv

lemma flag_true_of_inFlight (s : SysState) (i : Nat) (ph : AnalyzePhase)
    (hp : s.procs[i]? = some ph) (hin : inFlightB ph = true) (hinv : guardInv s) :
    s.isAnalyzing = true ∧ s.procs.countP inFlightB = 1 := by
  have hpos := countP_pos_of_getElem inFlightB s.procs i ph hp hin
  unfold guardInv at hinv
  cases hA : s.isAnalyzing with
  | false =>
      rw [hA, if_neg (by simp : ¬(false = true))] at hinv
      omega
  | true =>
      rw [hA, if_pos rfl] at hinv
      exact ⟨rfl, hinv⟩

lemma guardInv_gemini (s : SysState) (i : Nat) (res : Option (Option GeminiArgs))
    (hp : s.procs[i]? = some .awaitGemini) (hinv : guardInv s) :
    guardInv (geminiSeg s i res) := by
  obtain ⟨hA, hcnt⟩ := flag_true_of_inFlight s i _ hp rfl hinv
  have hdown : ∀ o : AnalyzeOutcome,
      (s.procs.set i (.done o)).countP inFlightB = 0 := by
    intro o
    have := countP_set_down s.procs i _ (.done o) hp rfl rfl
    omega
  unfold guardInv at hinv ⊢
  unfold geminiSeg
  cases res with
  | none => simp [setProc, hdown]
  | some ores =>
      cases ores with
      | none => simp [setProc, hdown]
      | some args =>
          by_cases h4 : s.stopRequested = true
          · simp [h4, setProc, hdown]
          · have h4f : s.stopRequested = false := bool_eq_false_of_ne_true h4
            cases hcap : s.settings.isCapturing with
            | false => simp [h4f, hcap, setProc, hdown]
            | true =>
                cases hue : s.userEmail with
                | some e₀ =>
                    cases hsb : s.hasSupabase with
                    | true =>
                        simp [h4f, hcap, hue, hsb, setProc, hinv,
                          countP_set_keep s.procs i _
                            (.awaitInsert e₀ s.settings.interval args) hp rfl rfl]
                    | false =>
                        cases h6 : args.is_locked_in <;>
                          simp [h4f, hcap, hue, hsb, h6, setProc, hdown]
                | none =>
                    cases hsb : s.hasSupabase <;>
                      cases h6 : args.is_locked_in <;>
                        simp [h4f, hcap, hue, hsb, h6, setProc, hdown]

lemma guardInv_insert (s : SysState) (i : Nat) (email : String) (secs : Int)
    (args : GeminiArgs) (ok : Bool)
    (hp : s.procs[i]? = some (.awaitInsert email secs args)) (hinv : guardInv s) :
    guardInv (insertSeg s i email secs args ok) := by
  have hdown : (s.procs.set i (.done .completed)).countP inFlightB = 0 := by
    obtain ⟨hA, hcnt⟩ := flag_true_of_inFlight s i _ hp rfl hinv
    have := countP_set_down s.procs i _ (.done .completed) hp rfl rfl
    omega
  unfold guardInv
  unfold insertSeg
  cases ok <;> by_cases h6 : args.is_locked_in = false <;>
    simp [setProc, h6, hdown]

lemma guardInv_step (e : Ev) (s s' : SysState) (h : stepFn e s = some s')
    (hinv : guardInv s) : guardInv s' := by
  cases e with
  | spawnAnalyze =>
      simp only [stepFn, Option.some.injEq] at h
      subst h
      unfold guardInv at hinv ⊢
      simp only [List.countP_append]
      have : ([AnalyzePhase.entry] : List AnalyzePhase).countP inFlightB = 0 := rfl
      rw [this, hinv]
      exact Nat.add_zero _
  | runEntry i =>
      simp only [stepFn] at h
      cases hp : s.procs[i]? with
      | none => rw [hp] at h; exact absurd h (by simp)
      | some ph =>
          rw [hp] at h
          cases ph with
          | entry =>
              simp only [Option.some.injEq] at h
              subst h
              exact guardInv_entry s i hp hinv
          | awaitPrior => exact absurd h (by simp)
          | awaitGemini => exact absurd h (by simp)
          | awaitInsert e₀ secs args => exact absurd h (by simp)
          | done o => exact absurd h (by simp)
  | priorDone i =>
      simp only [stepFn] at h
      cases hp : s.procs[i]? with
      | none => rw [hp] at h; exact absurd h (by simp)
      | some ph =>
          rw [hp] at h
          cases ph with
          | awaitPrior =>
              simp only [Option.some.injEq] at h
              subst h
              exact guardInv_prior s i hp hinv
          | entry => exact absurd h (by simp)
          | awaitGemini => exact absurd h (by simp)
          | awaitInsert e₀ secs args => exact absurd h (by simp)
          | done o => exact absurd h (by simp)
  | geminiDone i res =>
      simp only [stepFn] at h
      cases hp : s.procs[i]? with
      | none => rw [hp] at h; exact absurd h (by simp)
      | some ph =>
          rw [hp] at h
          cases ph with
          | awaitGemini =>
              simp only [Option.some.injEq] at h
              subst h
              exact guardInv_gemini s i res hp hinv
          | entry => exact absurd h (by simp)
          | awaitPrior => exact absurd h (by simp)
          | awaitInsert e₀ secs args => exact absurd h (by simp)
          | done o => exact absurd h (by simp)
  | insertDone i ok =>
      simp only [stepFn] at h
      cases hp : s.procs[i]? with
      | none => rw [hp] at h; exact absurd h (by simp)
      | some ph =>
          rw [hp] at h
          cases ph with
          | awaitInsert e₀ secs args =>
              simp only [Option.some.injEq] at h
              subst h
              exact guardInv_insert s i e₀ secs args ok hp hinv
          | entry => exact absurd h (by simp)
          | awaitPrior => exact absurd h (by simp)
          | awaitGemini => exact absurd h (by simp)
          | done o => exact absurd h (by simp)
  | startCall perm interval now =>
      simp only [stepFn, Option.some.injEq] at h
      subst h
      unfold startCallSeg
      by_cases hperm : perm = false
      · rw [if_pos hperm]
        exact hinv
      · rw [if_neg hperm]
        by_cases hn : interval < 1
        · rw [if_pos hn]
          exact hinv
        · rw [if_neg hn]
          unfold guardInv at hinv ⊢
          simp only [List.countP_append]
          have : ([AnalyzePhase.entry] : List AnalyzePhase).countP inFlightB = 0 := rfl
          rw [this, hinv]
          exact Nat.add_zero _
  | startFinish =>
      simp only [stepFn] at h
      by_cases hsp : s.startPending = true
      · rw [if_pos hsp] at h
        simp only [Option.some.injEq] at h
        subst h
        exact hinv
      · rw [if_neg hsp] at h
        exact absurd h (by simp)
  | stopBegin now =>
      simp only [stepFn] at h
      cases hsp : s.stopPolls with
      | none =>
          rw [hsp] at h
          simp only [Option.some.injEq] at h
          subst h
          exact hinv
      | some k => rw [hsp] at h; exact absurd h (by simp)
  | stopPoll =>
      simp only [stepFn] at h
      cases hsp : s.stopPolls with
      | none => rw [hsp] at h; exact absurd h (by simp)
      | some k =>
          rw [hsp] at h
          replace h : (if stopPollCond s k = true then
              some { s with stopPolls := some (k + 1) } else none) = some s' := h
          by_cases hc : stopPollCond s k = true
          · rw [if_pos hc] at h
            simp only [Option.some.injEq] at h
            subst h
            exact hinv
          · rw [if_neg hc] at h
            exact absurd h (by simp)
  | stopFinish =>
      simp only [stepFn] at h
      cases hsp : s.stopPolls with
      | none => rw [hsp] at h; exact absurd h (by simp)
      | some k =>
          rw [hsp] at h
          replace h : (if stopPollCond s k = true then none
              else some (stopFinishSeg s)) = some s' := h
          by_cases hc : stopPollCond s k = true
          · rw [if_pos hc] at h
            exact absurd h (by simp)
          · rw [if_neg hc] at h
            simp only [Option.some.injEq] at h
            subst h
            exact hinv
  | closePopup =>
      simp only [stepFn, Option.some.injEq] at h
      subst h
      exact hinv

lemma guardInv_trace : ∀ (ls : List Ev) (s s' : SysState),
    runTrace ls s = some s' → guardInv s → guardInv s' := by
  intro ls
  induction ls with
  | nil =>
      intro s s' h hinv
      simp only [runTrace, Option.some.injEq] at h
      subst h
      exact hinv
  | cons e es ih =>
      intro s s' h hinv
      simp only [runTrace] at h
      cases hx : stepFn e s with
      | none => rw [hx] at h; exact absurd h (by simp)
      | some s1 =>
          rw [hx] at h
          exact ih s1 s' h (guardInv_step e s s1 hx hinv)

/-- **C3.** At most one classification call is in flight at any time,
process-wide; and calling the gate while a prior call is in flight is a no-op
returning a "skipped" outcome: the invocation is marked done-skipped and
nothing else in the state changes — in particular no second external Gemini
request is issued (`geminiCalls` is untouched). -/
theorem single_flight (ue : Option String) (hsb hga : Bool) (ls : List Ev)
    (s : SysState) (h : runTrace ls (initState ue hsb hga) = some s) :
    s.procs.countP inFlightB ≤ 1 ∧
    (∀ i, s.isAnalyzing = true → s.procs[i]? = some .entry →
      ∃ o, (o = AnalyzeOutcome.skippedPopup ∨ o = AnalyzeOutcome.skippedBusy) ∧
        entrySeg s i = { s with procs := s.procs.set i (.done o) }) := by
  have hinv : guardInv s := by
    apply guardInv_trace ls _ s h
    unfold guardInv initState
    rfl
  constructor
  · unfold guardInv at hinv
    rw [hinv]
    cases s.isAnalyzing <;> simp
  · intro i hA _
    unfold entrySeg
    by_cases h1 : s.popupOpen = true
    · exact ⟨.skippedPopup, Or.inl rfl, by rw [if_pos h1]; rfl⟩
    · exact ⟨.skippedBusy, Or.inr rfl, by rw [if_neg h1, if_pos hA]; rfl⟩

/-- The state after `[spawnAnalyze, runEntry 0, spawnAnalyze]` from a
signed-in start state: one invocation holds the guard, a second sits at
entry. -/
def sfState : SysState :=
  { initState (some "a") true true with
      procs := [.awaitPrior, .entry], isAnalyzing := true }

/-- Witness for `single_flight` on a concrete trace. -/
theorem single_flight_witness :
    runTrace [Ev.spawnAnalyze, Ev.runEntry 0, Ev.spawnAnalyze]
        (initState (some "a") true true) = some sfState ∧
    (sfState.procs.countP inFlightB ≤ 1 ∧
      (∀ i, sfState.isAnalyzing = true → sfState.procs[i]? = some .entry →
        ∃ o, (o = AnalyzeOutcome.skippedPopup ∨ o = AnalyzeOutcome.skippedBusy) ∧
          entrySeg sfState i
            = { sfState with procs := sfState.procs.set i (.done o) })) :=
  ⟨rfl, single_flight (some "a") true true
    [Ev.spawnAnalyze, Ev.runEntry 0, Ev.spawnAnalyze] sfState rfl⟩

/-! ### C8 — the guard is released on every exit path -/

lemma geminiSeg_flag (s : SysState) (i : Nat) (res : Option (Option GeminiArgs)) :
    (geminiSeg s i res).isAnalyzing = false ∨
    ∃ e₀ args, geminiSeg s i res
      = setProc s i (.awaitInsert e₀ s.settings.interval args) := by
  unfold geminiSeg
  cases res with
  | none => exact Or.inl rfl
  | some ores =>
      cases ores with
      | none => exact Or.inl rfl
      | some args =>
          by_cases h4 : s.stopRequested = true
          · left
            simp [h4]
          · have h4f : s.stopRequested = false := bool_eq_false_of_ne_true h4
            by_cases hcap : s.settings.isCapturing = false
            · left
              simp [h4f, hcap]
            · cases hue : s.userEmail with
              | some e₀ =>
                  cases hsb : s.hasSupabase with
                  | true =>
                      right
                      exact ⟨e₀, args, by simp [h4f, hcap, hue, hsb]⟩
                  | false =>
                      left
                      cases h6 : args.is_locked_in <;>
                        simp [h4f, hcap, hue, hsb, h6, setProc]
              | none =>
                  left
                  cases hsb : s.hasSupabase <;>
                    cases h6 : args.is_locked_in <;>
                      simp [h4f, hcap, hue, hsb, h6, setProc]

lemma insertSeg_flag (s : SysState) (i : Nat) (email : String) (secs : Int)
    (args : GeminiArgs) (ok : Bool) :
    (insertSeg s i email secs args ok).isAnalyzing = false := by
  unfold insertSeg
  cases ok <;> cases h6 : args.is_locked_in <;> simp [h6, setProc]

lemma entry_passes_guard (s2 : SysState) (j : Nat) (hflag : s2.isAnalyzing = false)
    (hj : s2.procs[j]? = some .entry) (hpop : s2.popupOpen = false)
    (hga : s2.hasGenAI = true) :
    ∃ ph2, (entrySeg s2 j).procs[j]? = some ph2 ∧
      ph2 ≠ .done .skippedBusy := by
  have hlen : j < s2.procs.length := (List.getElem?_eq_some_iff.mp hj).1
  have hget : ∀ ph : AnalyzePhase, (s2.procs.set j ph)[j]? = some ph := by
    intro ph
    rw [List.getElem?_set]
    simp [hlen]
  unfold entrySeg
  rw [if_neg (by rw [hpop]; simp : ¬(s2.popupOpen = true)),
      if_neg (by rw [hflag]; simp : ¬(s2.isAnalyzing = true)),
      if_neg (by rw [hga]; simp : ¬(s2.hasGenAI = false))]
  by_cases h4 : s2.stopRequested = true
  · rw [if_pos h4]
    exact ⟨.done .abortedBefore, hget _, by decide⟩
  · rw [if_neg h4]
    cases hue : s2.userEmail with
    | some e₀ => exact ⟨.awaitPrior, hget _, by decide⟩
    | none => exact ⟨.awaitGemini, hget _, by decide⟩

/-- **C8.** Whenever an invocation that had passed the single-flight guard
(any in-flight phase) terminates — normal completion, insert failure,
classification error, timeout, abort, or discard — the step that finishes it
leaves `isAnalyzing = false` (the `finally` path), so a subsequent call at
entry is not turned away by the guard. -/
theorem guard_released (s s' : SysState) (e : Ev) (i : Nat) (ph : AnalyzePhase)
    (o : AnalyzeOutcome) (hstep : stepFn e s = some s')
    (hph : s.procs[i]? = some ph) (hin : inFlightB ph = true)
    (hdone : s'.procs[i]? = some (.done o)) :
    s'.isAnalyzing = false ∧
    (∀ j, s'.procs[j]? = some .entry → s'.popupOpen = false →
      s'.hasGenAI = true →
      ∃ ph2, (entrySeg s' j).procs[j]? = some ph2 ∧
        ph2 ≠ .done .skippedBusy) := by
  have hlen : i < s.procs.length := (List.getElem?_eq_some_iff.mp hph).1
  have hmain : s'.isAnalyzing = false := by
    cases e with
    | spawnAnalyze =>
        simp only [stepFn, Option.some.injEq] at hstep
        subst hstep
        simp only [List.getElem?_append_left hlen] at hdone
        rw [hph] at hdone
        cases hdone
        cases hin
    | runEntry j =>
        simp only [stepFn] at hstep
        cases hp : s.procs[j]? with
        | none => rw [hp] at hstep; exact absurd hstep (by simp)
        | some phj =>
            rw [hp] at hstep
            cases phj with
            | awaitPrior => exact absurd hstep (by simp)
            | awaitGemini => exact absurd hstep (by simp)
            | awaitInsert e₀ secs args => exact absurd hstep (by simp)
            | done o2 => exact absurd hstep (by simp)
            | entry =>
              simp only [Option.some.injEq] at hstep
              subst hstep
              by_cases hij : j = i
              · subst hij
                rw [hp] at hph
                cases hph
                cases hin
              · -- entrySeg only sets index j; position i is unchanged
                have : (entrySeg s j).procs[i]? = s.procs[i]? := by
                  unfold entrySeg
                  by_cases h1 : s.popupOpen = true
                  · rw [if_pos h1]; exact List.getElem?_set_ne hij
                  · rw [if_neg h1]
                    by_cases h2 : s.isAnalyzing = true
                    · rw [if_pos h2]; exact List.getElem?_set_ne hij
                    · rw [if_neg h2]
                      by_cases h3 : s.hasGenAI = false
                      · rw [if_pos h3]; exact List.getElem?_set_ne hij
                      · rw [if_neg h3]
                        by_cases h4 : s.stopRequested = true
                        · rw [if_pos h4]; exact List.getElem?_set_ne hij
                        · rw [if_neg h4]
                          cases hue : s.userEmail <;>
                            · simp only [setProc]
                              exact List.getElem?_set_ne hij
                rw [this, hph] at hdone
                cases hdone
                cases hin
    | priorDone j =>
        simp only [stepFn] at hstep
        cases hp : s.procs[j]? with
        | none => rw [hp] at hstep; exact absurd hstep (by simp)
        | some phj =>
            rw [hp] at hstep
            cases phj with
            | entry => exact absurd hstep (by simp)
            | awaitGemini => exact absurd hstep (by simp)
            | awaitInsert e₀ secs args => exact absurd hstep (by simp)
            | done o2 => exact absurd hstep (by simp)
            | awaitPrior =>
              simp only [Option.some.injEq] at hstep
              subst hstep
              by_cases hij : j = i
              · subst hij
                have : (priorSeg s j).procs[j]? = some .awaitGemini := by
                  unfold priorSeg
                  simp only [setProc]
                  rw [List.getElem?_set]
                  simp [hlen]
                rw [this] at hdone
                cases hdone
              · have : (priorSeg s j).procs[i]? = s.procs[i]? := by
                  unfold priorSeg
                  simp only [setProc]
                  exact List.getElem?_set_ne hij
                rw [this, hph] at hdone
                cases hdone
                cases hin
    | geminiDone j res =>
        simp only [stepFn] at hstep
        cases hp : s.procs[j]? with
        | none => rw [hp] at hstep; exact absurd hstep (by simp)
        | some phj =>
            rw [hp] at hstep
            cases phj with
            | entry => exact absurd hstep (by simp)
            | awaitPrior => exact absurd hstep (by simp)
            | awaitInsert e₀ secs args => exact absurd hstep (by simp)
            | done o2 => exact absurd hstep (by simp)
            | awaitGemini =>
              simp only [Option.some.injEq] at hstep
              subst hstep
              rcases geminiSeg_flag s j res with hflag | ⟨e₀, args, heq⟩
              · exact hflag
              · rw [heq] at hdone
                by_cases hij : j = i
                · subst hij
                  have : (setProc s j (.awaitInsert e₀ s.settings.interval
                      args)).procs[j]? = some (.awaitInsert e₀
                      s.settings.interval args) := by
                    simp only [setProc]
                    rw [List.getElem?_set]
                    simp [hlen]
                  rw [this] at hdone
                  cases hdone
                · have : (setProc s j (.awaitInsert e₀ s.settings.interval
                      args)).procs[i]? = s.procs[i]? := by
                    simp only [setProc]
                    exact List.getElem?_set_ne hij
                  rw [this, hph] at hdone
                  cases hdone
                  cases hin
    | insertDone j ok =>
        simp only [stepFn] at hstep
        cases hp : s.procs[j]? with
        | none => rw [hp] at hstep; exact absurd hstep (by simp)
        | some phj =>
            rw [hp] at hstep
            cases phj with
            | entry => exact absurd hstep (by simp)
            | awaitPrior => exact absurd hstep (by simp)
            | awaitGemini => exact absurd hstep (by simp)
            | done o2 => exact absurd hstep (by simp)
            | awaitInsert e₀ secs args =>
              simp only [Option.some.injEq] at hstep
              subst hstep
              exact insertSeg_flag s j _ _ _ ok
    | startCall perm interval now =>
        simp only [stepFn, Option.some.injEq] at hstep
        subst hstep
        unfold startCallSeg at hdone ⊢
        by_cases hperm : perm = false
        · rw [if_pos hperm] at hdone ⊢
          replace hdone : s.procs[i]? = some (.done o) := hdone
          rw [hph] at hdone
          cases hdone
          cases hin
        · rw [if_neg hperm] at hdone ⊢
          by_cases hn : interval < 1
          · rw [if_pos hn] at hdone ⊢
            replace hdone : s.procs[i]? = some (.done o) := hdone
            rw [hph] at hdone
            cases hdone
            cases hin
          · rw [if_neg hn] at hdone ⊢
            replace hdone : (s.procs ++ [AnalyzePhase.entry])[i]?
                = some (.done o) := hdone
            rw [List.getElem?_append_left hlen] at hdone
            rw [hph] at hdone
            cases hdone
            cases hin
    | startFinish =>
        simp only [stepFn] at hstep
        by_cases hsp : s.startPending = true
        · rw [if_pos hsp] at hstep
          simp only [Option.some.injEq] at hstep
          subst hstep
          replace hdone : s.procs[i]? = some (.done o) := hdone
          rw [hph] at hdone
          cases hdone
          cases hin
        · rw [if_neg hsp] at hstep
          exact absurd hstep (by simp)
    | stopBegin now =>
        simp only [stepFn] at hstep
        cases hsp : s.stopPolls with
        | none =>
            rw [hsp] at hstep
            simp only [Option.some.injEq] at hstep
            subst hstep
            replace hdone : s.procs[i]? = some (.done o) := hdone
            rw [hph] at hdone
            cases hdone
            cases hin
        | some k => rw [hsp] at hstep; exact absurd hstep (by simp)
    | stopPoll =>
        simp only [stepFn] at hstep
        cases hsp : s.stopPolls with
        | none => rw [hsp] at hstep; exact absurd hstep (by simp)
        | some k =>
            rw [hsp] at hstep
            replace hstep : (if stopPollCond s k = true then
                some { s with stopPolls := some (k + 1) } else none)
                  = some s' := hstep
            by_cases hc : stopPollCond s k = true
            · rw [if_pos hc] at hstep
              simp only [Option.some.injEq] at hstep
              subst hstep
              replace hdone : s.procs[i]? = some (.done o) := hdone
              rw [hph] at hdone
              cases hdone
              cases hin
            · rw [if_neg hc] at hstep
              exact absurd hstep (by simp)
    | stopFinish =>
        simp only [stepFn] at hstep
        cases hsp : s.stopPolls with
        | none => rw [hsp] at hstep; exact absurd hstep (by simp)
        | some k =>
            rw [hsp] at hstep
            replace hstep : (if stopPollCond s k = true then none
                else some (stopFinishSeg s)) = some s' := hstep
            by_cases hc : stopPollCond s k = true
            · rw [if_pos hc] at hstep
              exact absurd hstep (by simp)
            · rw [if_neg hc] at hstep
              simp only [Option.some.injEq] at hstep
              subst hstep
              replace hdone : s.procs[i]? = some (.done o) := hdone
              rw [hph] at hdone
              cases hdone
              cases hin
    | closePopup =>
        simp only [stepFn, Option.some.injEq] at hstep
        subst hstep
        replace hdone : s.procs[i]? = some (.done o) := hdone
        rw [hph] at hdone
        cases hdone
        cases hin
  exact ⟨hmain, fun j hj hpop hga => entry_passes_guard s' j hmain hj hpop hga⟩

/-- A state with one invocation waiting on the Gemini call. -/
def ggState : SysState :=
  { initState (some "a") true true with
      procs := [.awaitGemini], isAnalyzing := true }

/-- Witness for `guard_released`: a Gemini timeout finishes the in-flight
invocation and drops the guard. -/
theorem guard_released_witness :
    (stepFn (Ev.geminiDone 0 none) ggState = some (geminiSeg ggState 0 none) ∧
     ggState.procs[0]? = some AnalyzePhase.awaitGemini ∧
     inFlightB AnalyzePhase.awaitGemini = true ∧
     (geminiSeg ggState 0 none).procs[0]?
        = some (AnalyzePhase.done .errored)) ∧
    ((geminiSeg ggState 0 none).isAnalyzing = false ∧
     (∀ j, (geminiSeg ggState 0 none).procs[j]? = some .entry →
       (geminiSeg ggState 0 none).popupOpen = false →
       (geminiSeg ggState 0 none).hasGenAI = true →
       ∃ ph2, (entrySeg (geminiSeg ggState 0 none) j).procs[j]? = some ph2 ∧
         ph2 ≠ .done .skippedBusy)) :=
  ⟨⟨rfl, rfl, rfl, rfl⟩,
   guard_released ggState (geminiSeg ggState 0 none) (Ev.geminiDone 0 none)
     0 AnalyzePhase.awaitGemini AnalyzeOutcome.errored rfl rfl rfl rfl⟩

/-! ### C4 — writes after a completed stop -/

/-- No invocation holds an issued-but-unresolved insert rpc. -/
def NoIns (l : List AnalyzePhase) : Prop :=
  ∀ ph ∈ l, ∀ email secs args, ph ≠ AnalyzePhase.awaitInsert email secs args

lemma NoIns_set (s : SysState) (i : Nat) (ph : AnalyzePhase)
    (hni : NoIns s.procs)
    (hph : ∀ email secs args, ph ≠ AnalyzePhase.awaitInsert email secs args) :
    NoIns (s.procs.set i ph) := by
  intro q hq email secs args
  rcases List.mem_or_eq_of_mem_set hq with hq1 | hq1
  · exact hni q hq1 email secs args
  · subst hq1
    exact hph email secs args

lemma NoIns_append_entry (l : List AnalyzePhase) (hni : NoIns l) :
    NoIns (l ++ [AnalyzePhase.entry]) := by
  intro q hq email secs args
  rcases List.mem_append.mp hq with hq1 | hq1
  · exact hni q hq1 email secs args
  · simp only [List.mem_singleton] at hq1
    subst hq1
    simp

lemma geminiSeg_stopped (s : SysState) (i : Nat) (res : Option (Option GeminiArgs))
    (hstop : s.stopRequested = true) :
    ∃ o, geminiSeg s i res
      = { setProc s i (.done o) with isAnalyzing := false } := by
  unfold geminiSeg
  cases res with
  | none => exact ⟨.errored, rfl⟩
  | some ores =>
      cases ores with
      | none => exact ⟨.noCall, rfl⟩
      | some args => exact ⟨.abortedAfter, by simp [hstop]⟩

lemma entrySeg_stopped (s : SysState) (i : Nat) (hstop : s.stopRequested = true) :
    ∃ st : SysState, entrySeg s i = st ∧ st.procs.countP inFlightB
        = st.procs.countP inFlightB ∧
      st.store = s.store ∧ st.stopRequested = true ∧
      ∃ o b, st = { setProc s i (.done o) with isAnalyzing := b } := by
  unfold entrySeg
  by_cases h1 : s.popupOpen = true
  · rw [if_pos h1]
    exact ⟨_, rfl, rfl, rfl, hstop, .skippedPopup, s.isAnalyzing, by
      simp only [setProc]⟩
  · rw [if_neg h1]
    by_cases h2 : s.isAnalyzing = true
    · rw [if_pos h2]
      exact ⟨_, rfl, rfl, rfl, hstop, .skippedBusy, s.isAnalyzing, by
        simp only [setProc]⟩
    · rw [if_neg h2]
      by_cases h3 : s.hasGenAI = false
      · rw [if_pos h3]
        exact ⟨_, rfl, rfl, rfl, hstop, .skippedNoAI, s.isAnalyzing, by
          simp only [setProc]⟩
      · rw [if_neg h3]
        rw [if_pos hstop]
        exact ⟨_, rfl, rfl, rfl, hstop, .abortedBefore, false, rfl⟩

/-- Once the abort flag is up, any step other than a (new-session) `startCall`
keeps it up, issues no insert rpc, and leaves the stats store unchanged. -/
lemma stopped_step (e : Ev) (s s' : SysState) (h : stepFn e s = some s')
    (hstop : s.stopRequested = true) (hni : NoIns s.procs)
    (hnostart : ∀ perm n now, e ≠ Ev.startCall perm n now) :
    s'.stopRequested = true ∧ NoIns s'.procs ∧ s'.store = s.store := by
  cases e with
  | spawnAnalyze =>
      simp only [stepFn, Option.some.injEq] at h
      subst h
      exact ⟨hstop, NoIns_append_entry s.procs hni, rfl⟩
  | runEntry i =>
      simp only [stepFn] at h
      cases hp : s.procs[i]? with
      | none => rw [hp] at h; exact absurd h (by simp)
      | some phj =>
          rw [hp] at h
          cases phj with
          | awaitPrior => exact absurd h (by simp)
          | awaitGemini => exact absurd h (by simp)
          | awaitInsert e₀ secs args => exact absurd h (by simp)
          | done o2 => exact absurd h (by simp)
          | entry =>
              simp only [Option.some.injEq] at h
              subst h
              obtain ⟨st, heq, _, hstore, hstop2, o, b, hshape⟩ :=
                entrySeg_stopped s i hstop
              rw [heq, hshape]
              refine ⟨hstop, ?_, ?_⟩
              · exact NoIns_set s i _ hni (by intro _ _ _ hcontra; cases hcontra)
              · rfl
  | priorDone i =>
      simp only [stepFn] at h
      cases hp : s.procs[i]? with
      | none => rw [hp] at h; exact absurd h (by simp)
      | some phj =>
          rw [hp] at h
          cases phj with
          | entry => exact absurd h (by simp)
          | awaitGemini => exact absurd h (by simp)
          | awaitInsert e₀ secs args => exact absurd h (by simp)
          | done o2 => exact absurd h (by simp)
          | awaitPrior =>
              simp only [Option.some.injEq] at h
              subst h
              refine ⟨hstop, ?_, rfl⟩
              unfold priorSeg
              exact NoIns_set s i _ hni (by intro _ _ _ hcontra; cases hcontra)
  | geminiDone i res =>
      simp only [stepFn] at h
      cases hp : s.procs[i]? with
      | none => rw [hp] at h; exact absurd h (by simp)
      | some phj =>
          rw [hp] at h
          cases phj with
          | entry => exact absurd h (by simp)
          | awaitPrior => exact absurd h (by simp)
          | awaitInsert e₀ secs args => exact absurd h (by simp)
          | done o2 => exact absurd h (by simp)
          | awaitGemini =>
              simp only [Option.some.injEq] at h
              subst h
              obtain ⟨o, heq⟩ := geminiSeg_stopped s i res hstop
              rw [heq]
              refine ⟨hstop, ?_, rfl⟩
              exact NoIns_set s i _ hni (by intro _ _ _ hcontra; cases hcontra)
  | insertDone i ok =>
      simp only [stepFn] at h
      cases hp : s.procs[i]? with
      | none => rw [hp] at h; exact absurd h (by simp)
      | some phj =>
          rw [hp] at h
          cases phj with
          | entry => exact absurd h (by simp)
          | awaitPrior => exact absurd h (by simp)
          | awaitGemini => exact absurd h (by simp)
          | done o2 => exact absurd h (by simp)
          | awaitInsert e₀ secs args =>
              exact absurd rfl
                (hni _ (List.getElem?_mem hp) e₀ secs args)
  | startCall perm interval now =>
      exact absurd rfl (hnostart perm interval now)
  | startFinish =>
      simp only [stepFn] at h
      by_cases hsp : s.startPending = true
      · rw [if_pos hsp] at h
        simp only [Option.some.injEq] at h
        subst h
        exact ⟨hstop, hni, rfl⟩
      · rw [if_neg hsp] at h
        exact absurd h (by simp)
  | stopBegin now =>
      simp only [stepFn] at h
      cases hsp : s.stopPolls with
      | none =>
          rw [hsp] at h
          simp only [Option.some.injEq] at h
          subst h
          exact ⟨rfl, hni, rfl⟩
      | some k => rw [hsp] at h; exact absurd h (by simp)
  | stopPoll =>
      simp only [stepFn] at h
      cases hsp : s.stopPolls with
      | none => rw [hsp] at h; exact absurd h (by simp)
      | some k =>
          rw [hsp] at h
          replace h : (if stopPollCond s k = true then
              some { s with stopPolls := some (k + 1) } else none) = some s' := h
          by_cases hc : stopPollCond s k = true
          · rw [if_pos hc] at h
            simp only [Option.some.injEq] at h
            subst h
            exact ⟨hstop, hni, rfl⟩
          · rw [if_neg hc] at h
            exact absurd h (by simp)
  | stopFinish =>
      simp only [stepFn] at h
      cases hsp : s.stopPolls with
      | none => rw [hsp] at h; exact absurd h (by simp)
      | some k =>
          rw [hsp] at h
          replace h : (if stopPollCond s k = true then none
              else some (stopFinishSeg s)) = some s' := h
          by_cases hc : stopPollCond s k = true
          · rw [if_pos hc] at h
            exact absurd h (by simp)
          · rw [if_neg hc] at h
            simp only [Option.some.injEq] at h
            subst h
            exact ⟨hstop, hni, rfl⟩
  | closePopup =>
      simp only [stepFn, Option.some.injEq] at h
      subst h
      exact ⟨hstop, hni, rfl⟩

/-- **C4 (amended).** Once `stopScreenCapture` has raised the abort flag, and
as long as no new `startScreenCapture` call occurs, no insert is ever issued
and the stats store never changes — PROVIDED no insert rpc was already in
flight when the flag went up.  (The unamended claim fails exactly when an
insert issued before the stop is still unresolved when the 5 s grace period
expires: the rpc then commits after `stop()` has fully completed; see the
counterexample.) -/
theorem no_write_after_stop (ls : List Ev) (s s' : SysState)
    (hstop : s.stopRequested = true) (hni : NoIns s.procs)
    (hnostart : ∀ perm n now, Ev.startCall perm n now ∉ ls)
    (hrun : runTrace ls s = some s') :
    s'.store = s.store ∧ s'.stopRequested = true := by
  induction ls generalizing s with
  | nil =>
      simp only [runTrace, Option.some.injEq] at hrun
      subst hrun
      exact ⟨rfl, hstop⟩
  | cons e es ih =>
      simp only [runTrace] at hrun
      cases hx : stepFn e s with
      | none => rw [hx] at hrun; exact absurd hrun (by simp)
      | some s1 =>
          rw [hx] at hrun
          have hnostart1 : ∀ perm n now, e ≠ Ev.startCall perm n now := by
            intro perm n now hcontra
            exact hnostart perm n now (hcontra ▸ List.mem_cons_self e es)
          obtain ⟨hstop1, hni1, hstore1⟩ :=
            stopped_step e s s1 hx hstop hni hnostart1
          have hnostart2 : ∀ perm n now, Ev.startCall perm n now ∉ es := by
            intro perm n now hcontra
            exact hnostart perm n now (List.mem_cons_of_mem e hcontra)
          obtain ⟨hstore2, hstop2⟩ := ih s1 hstop1 hni1 hnostart2 hrun
          exact ⟨hstore2.trans hstore1, hstop2⟩

/-- Witness for `no_write_after_stop`: a capture cycle firing after stop is
aborted and writes nothing. -/
theorem no_write_after_stop_witness :
    ((stopBeginSeg runningState 9).stopRequested = true ∧
     NoIns (stopBeginSeg runningState 9).procs ∧
     (∀ perm n now, Ev.startCall perm n now
        ∉ [Ev.spawnAnalyze, Ev.runEntry 0]) ∧
     runTrace [Ev.spawnAnalyze, Ev.runEntry 0] (stopBeginSeg runningState 9)
        = some (entrySeg { stopBeginSeg runningState 9 with
            procs := [AnalyzePhase.entry] } 0)) ∧
    ((entrySeg { stopBeginSeg runningState 9 with
        procs := [AnalyzePhase.entry] } 0).store
        = (stopBeginSeg runningState 9).store ∧
     (entrySeg { stopBeginSeg runningState 9 with
        procs := [AnalyzePhase.entry] } 0).stopRequested = true) := by
  refine ⟨⟨rfl, ?_, ?_, rfl⟩, ?_⟩
  · intro ph hph email secs args
    simp [stopBeginSeg, runningState, initState] at hph
  · intro perm n now hcontra
    simp at hcontra
  · exact no_write_after_stop [Ev.spawnAnalyze, Ev.runEntry 0]
      (stopBeginSeg runningState 9) _ rfl
      (by intro ph hph email secs args
          simp [stopBeginSeg, runningState, initState] at hph)
      (by intro perm n now hcontra; simp at hcontra) rfl

/-- The structured result of an on-goal classification. -/
def onArgs : GeminiArgs :=
  { is_locked_in := true, user_activity_description := "coding",
    same_task := true, task_category := "Analytical" }

/-- A full run: start, classify, issue the insert rpc, then stop while the
rpc is unresolved; the 5 s grace period expires and stop completes. -/
def c4Trace : List Ev :=
  [.startCall true 10 0, .startFinish, .runEntry 0, .priorDone 0,
   .geminiDone 0 (some (some onArgs)), .stopBegin 100]
  ++ List.replicate 50 .stopPoll ++ [.stopFinish]

/-- **C4 (counterexample).** As stated the claim is false: when the insert
rpc issued before `stop()` outlives the 5 s grace period, `stop()` completes
fully (`stopsCompleted = 1`, store still empty) and the rpc then commits a
record afterwards, with no new session started (the one further event is not
a start call). -/
theorem write_after_stop_counterexample :
    (runTrace c4Trace (initState (some "a") true true)).map
        (fun s => (s.stopsCompleted, s.store.length)) = some (1, 0) ∧
    (∀ perm n now, Ev.startCall perm n now ∉ [Ev.insertDone 0 true]) ∧
    (runTrace (c4Trace ++ [Ev.insertDone 0 true])
        (initState (some "a") true true)).map
        (fun s => (s.stopsCompleted, s.store.length)) = some (1, 1) := by
  refine ⟨rfl, ?_, rfl⟩
  intro perm n now hcontra
  simp at hcontra

/-! ### C9 — `setScreenCaptureInterval` while capturing

`clearInterval` / `setInterval` are modelled with explicit fire times: a
running repeating timer has a period and the absolute time of its next fire;
`setInterval(fn, p)` started at time `now` first fires at `now + p`.  Times
are in seconds (the source multiplies by 1000 for milliseconds). -/

structure TimerModel where
  period : Int
  nextFireAt : Int
deriving Repr, DecidableEq

structure IntervalState where
  interval : Int
  isCapturing : Bool
  timer : Option TimerModel
  sessionStartAt : Option Int
  sessionEndAt : Option Int
deriving Repr, DecidableEq

/-- `setScreenCaptureInterval`: throw on `interval < 1`; store the new
interval (`saveSettings`); if currently capturing with a running timer, clear
it and start a fresh one at the new period (first fire a full new period from
now). -/
def setScreenCaptureInterval (s : IntervalState) (interval : Int) (now : Int) :
    Except String IntervalState :=
  if interval < 1 then Except.error "Interval must be at least 1 second"
  else
    let s1 : IntervalState := { s with interval := interval }
    if s1.isCapturing && s1.timer.isSome then
      Except.ok { s1 with timer := some { period := interval,
                                          nextFireAt := now + interval } }
    else Except.ok s1

/-- **C9.** `setInterval(n)` with `n ≥ 1` while capturing: the stored interval
and the running timer's period become `n`; the session window is untouched;
and no two capture cycles can fire within less than `min(old period, n)`: the
swapped-in timer first fires a full `n` after the swap, so its gap from the
last fire (`tLast ≤ now`) is at least `n ≥ min(oldP, n)`, and later gaps equal
the new period `n ≥ min(oldP, n)`. -/
theorem set_interval_spec (s : IntervalState) (n now tLast oldP : Int)
    (hn : 1 ≤ n) (hcap : s.isCapturing = true)
    (htimer : s.timer = some { period := oldP, nextFireAt := tLast + oldP })
    (hlast : tLast ≤ now) :
    ∃ s', setScreenCaptureInterval s n now = Except.ok s' ∧
      s'.interval = n ∧
      s'.timer = some { period := n, nextFireAt := now + n } ∧
      tLast + min oldP n ≤ now + n ∧
      min oldP n ≤ n ∧
      s'.sessionStartAt = s.sessionStartAt ∧
      s'.sessionEndAt = s.sessionEndAt := by
  refine ⟨{ s with
              interval := n,
              timer := some { period := n, nextFireAt := now + n } },
          ?_, rfl, rfl, ?_, min_le_right oldP n, rfl, rfl⟩
  · unfold setScreenCaptureInterval
    rw [if_neg (by omega : ¬(n < 1))]
    have hcond : (({ s with interval := n } : IntervalState).isCapturing &&
        ({ s with interval := n } : IntervalState).timer.isSome) = true := by
      simp [hcap, htimer]
    rw [if_pos hcond]
  · have := min_le_right oldP n
    omega

/-- Witness for `set_interval_spec`: swap a 10 s timer for a 3 s one at
`now = 25`, last fire at `20`. -/
theorem set_interval_spec_witness :
    ((1 : Int) ≤ 3 ∧
     ({ interval := 10, isCapturing := true,
        timer := some { period := 10, nextFireAt := 30 },
        sessionStartAt := some 0, sessionEndAt := none } :
          IntervalState).isCapturing = true ∧
     ({ interval := 10, isCapturing := true,
        timer := some { period := 10, nextFireAt := 30 },
        sessionStartAt := some 0, sessionEndAt := none } :
          IntervalState).timer
        = some { period := 10, nextFireAt := 20 + 10 } ∧
     (20 : Int) ≤ 25) ∧
    ∃ s', setScreenCaptureInterval
        { interval := 10, isCapturing := true,
          timer := some { period := 10, nextFireAt := 30 },
          sessionStartAt := some 0, sessionEndAt := none } 3 25 = Except.ok s' ∧
      s'.interval = 3 ∧
      s'.timer = some { period := 3, nextFireAt := 25 + 3 } ∧
      (20 : Int) + min 10 3 ≤ 25 + 3 ∧
      min (10 : Int) 3 ≤ 3 ∧
      s'.sessionStartAt = some 0 ∧
      s'.sessionEndAt = none := by
  refine ⟨⟨by norm_num, rfl, by norm_num, by norm_num⟩, ?_⟩
  exact set_interval_spec _ 3 25 20 10 (by norm_num) rfl (by norm_num) (by norm_num)

/-! ### C2 — two concurrent `insert_activity_stat` transactions

Interleaving model of two concurrent calls of the PL/pgSQL function, each
split into its sequential statements: acquire
`pg_advisory_xact_lock(hashtext(p_email))`, `SELECT` the most recent
`seq_time`, compute-and-`INSERT`, commit (which releases the advisory lock).
`hashtext` is an external PostgreSQL function; the lock key is modelled as the
email itself (collision-free keying, matching the migration's stated
intent that different users lock independently). -/

structure TxParams where
  email : String
  tx_description : String
  on_goal : Bool
  seconds : Int
  task : String
  same_task : Bool
deriving Repr, DecidableEq

/-- Where a transaction stands: before the lock, holding the lock, holding
the lock with the prior `seq_time` read, row inserted, committed. -/
inductive TxPhase
  | start
  | locked
  | readDone (prev : Option Int)
  | written
  | committed
deriving Repr, DecidableEq

/-- The row a transaction inserts, given the prior `seq_time` it read:
the compute-and-insert statements of `insert_activity_stat`. -/
def txRecord (p : TxParams) (prev : Option Int) : StatsRecord :=
  { email := p.email, rec_description := p.tx_description, on_goal := p.on_goal,
    seconds := p.seconds, seq_time := v_seq_time_of prev p.same_task p.seconds,
    task := p.task }

structure DbState where
  store : List StatsRecord
  tx : Fin 2 → TxPhase
  lockHeld : Fin 2 → Bool

/-- One statement of transaction `i`.  `acquire` blocks while any holder has
the same lock key (email); the read takes the CURRENT most recent `seq_time`;
the write uses the value READ EARLIER (the race the advisory lock must
prevent); commit releases the lock. -/
inductive DbStep (p : Fin 2 → TxParams) (i : Fin 2) : DbState → DbState → Prop
  | acquire (s : DbState) (h : s.tx i = .start)
      (hfree : ∀ j, s.lockHeld j = true → (p j).email ≠ (p i).email) :
      DbStep p i s { s with tx := Function.update s.tx i .locked,
                            lockHeld := Function.update s.lockHeld i true }
  | readStep (s : DbState) (h : s.tx i = .locked) :
      DbStep p i s { s with
        tx := Function.update s.tx i
          (.readDone ((mostRecentFor s.store (p i).email).map
            (fun r => r.seq_time))) }
  | writeStep (s : DbState) (prev : Option Int) (h : s.tx i = .readDone prev) :
      DbStep p i s { s with store := s.store ++ [txRecord (p i) prev],
                            tx := Function.update s.tx i .written }
  | commitStep (s : DbState) (h : s.tx i = .written) :
      DbStep p i s { s with tx := Function.update s.tx i .committed,
                            lockHeld := Function.update s.lockHeld i false }

def dbInit (store0 : List StatsRecord) : DbState :=
  { store := store0, tx := fun _ => .start, lockHeld := fun _ => false }

def DbReachable (p : Fin 2 → TxParams) (store0 : List StatsRecord)
    (s : DbState) : Prop :=
  Relation.ReflTransGen (fun a b => ∃ i, DbStep p i a b) (dbInit store0) s

/-- A transaction between lock acquisition and commit. -/
def inCritical : TxPhase → Bool
  | .start => false
  | .committed => false
  | _ => true

/-- The advisory lock is held exactly through the critical phases, and two
holders never share a lock key. -/
def DbInv (p : Fin 2 → TxParams) (s : DbState) : Prop :=
  (∀ i, s.lockHeld i = inCritical (s.tx i)) ∧
  ((p 0).email = (p 1).email →
    ¬(s.lockHeld 0 = true ∧ s.lockHeld 1 = true))

lemma db_inv_step (p : Fin 2 → TxParams) (i : Fin 2) (s s' : DbState)
    (hstep : DbStep p i s s') (hinv : DbInv p s) : DbInv p s' := by
  obtain ⟨hlock, hexcl⟩ := hinv
  cases hstep with
  | acquire h hfree =>
      constructor
      · intro j
        by_cases hij : j = i
        · subst hij
          show Function.update s.lockHeld j true j
            = inCritical (Function.update s.tx j TxPhase.locked j)
          rw [Function.update_same, Function.update_same]
          rfl
        · show Function.update s.lockHeld i true j
            = inCritical (Function.update s.tx i TxPhase.locked j)
          rw [Function.update_noteq hij, Function.update_noteq hij]
          exact hlock j
      · intro hemail hcontra
        obtain ⟨h0, h1⟩ := hcontra
        rcases (by omega : i = 0 ∨ i = 1) with hi | hi
        · subst hi
          replace h1 : Function.update s.lockHeld 0 true 1 = true := h1
          rw [Function.update_noteq (by decide : (1 : Fin 2) ≠ 0)] at h1
          exact hfree 1 h1 (by rw [hemail])
        · subst hi
          replace h0 : Function.update s.lockHeld 1 true 0 = true := h0
          rw [Function.update_noteq (by decide : (0 : Fin 2) ≠ 1)] at h0
          exact hfree 0 h0 (by rw [hemail])
  | readStep h =>
      constructor
      · intro j
        by_cases hij : j = i
        · subst hij
          show s.lockHeld j = inCritical (Function.update s.tx j
            (TxPhase.readDone ((mostRecentFor s.store (p j).email).map
              (fun r => r.seq_time))) j)
          rw [Function.update_same, hlock j, h]
          rfl
        · show s.lockHeld j = inCritical (Function.update s.tx i
            (TxPhase.readDone ((mostRecentFor s.store (p i).email).map
              (fun r => r.seq_time))) j)
          rw [Function.update_noteq hij]
          exact hlock j
      · intro hemail hcontra
        exact hexcl hemail hcontra
  | writeStep prev h =>
      constructor
      · intro j
        by_cases hij : j = i
        · subst hij
          show s.lockHeld j
            = inCritical (Function.update s.tx j TxPhase.written j)
          rw [Function.update_same, hlock j, h]
          rfl
        · show s.lockHeld j
            = inCritical (Function.update s.tx i TxPhase.written j)
          rw [Function.update_noteq hij]
          exact hlock j
      · intro hemail hcontra
        exact hexcl hemail hcontra
  | commitStep h =>
      constructor
      · intro j
        by_cases hij : j = i
        · subst hij
          show Function.update s.lockHeld j false j
            = inCritical (Function.update s.tx j TxPhase.committed j)
          rw [Function.update_same, Function.update_same]
          rfl
        · show Function.update s.lockHeld i false j
            = inCritical (Function.update s.tx i TxPhase.committed j)
          rw [Function.update_noteq hij, Function.update_noteq hij]
          exact hlock j
      · intro hemail hcontra
        obtain ⟨h0, h1⟩ := hcontra
        apply hexcl hemail
        constructor
        · replace h0 : Function.update s.lockHeld i false 0 = true := h0
          by_cases h0i : (0 : Fin 2) = i
          · rw [← h0i, Function.update_same] at h0
            exact absurd h0 (by simp)
          · rwa [Function.update_noteq h0i] at h0
        · replace h1 : Function.update s.lockHeld i false 1 = true := h1
          by_cases h1i : (1 : Fin 2) = i
          · rw [← h1i, Function.update_same] at h1
            exact absurd h1 (by simp)
          · rwa [Function.update_noteq h1i] at h1

lemma db_reach_inv (p : Fin 2 → TxParams) (store0 : List StatsRecord)
    (s : DbState) (h : DbReachable p store0 s) : DbInv p s := by
  induction h with
  | refl =>
      constructor
      · intro i
        rfl
      · intro _ ⟨h0, _⟩
        exact absurd h0 (by simp [dbInit])
  | tail hreach hstep ih =>
      obtain ⟨i, hstep⟩ := hstep
      exact db_inv_step p i _ _ hstep ih

/-- **C2.** With the per-email advisory lock, (a) two concurrent inserts for
the SAME owner serialize: in no reachable interleaving have both transactions
read the most recent `seq_time` and not yet written (the lost-update race is
impossible — indeed both can never be between lock and commit at once), and
(b) inserts for DIFFERENT owners never block each other: each uncommitted
transaction always has its next statement enabled. -/
theorem insert_atomicity (p : Fin 2 → TxParams) (store0 : List StatsRecord)
    (s : DbState) (h : DbReachable p store0 s) :
    ((p 0).email = (p 1).email →
      ¬(∃ a b, s.tx 0 = TxPhase.readDone a ∧ s.tx 1 = TxPhase.readDone b)) ∧
    ((p 0).email ≠ (p 1).email →
      ∀ i, s.tx i ≠ TxPhase.committed → ∃ s', DbStep p i s s') := by
  obtain ⟨hlock, hexcl⟩ := db_reach_inv p store0 s h
  constructor
  · intro hemail ⟨a, b, h0, h1⟩
    apply hexcl hemail
    constructor
    · rw [hlock 0, h0]
      rfl
    · rw [hlock 1, h1]
      rfl
  · intro hne i hi
    cases hph : s.tx i with
    | start =>
        refine ⟨_, DbStep.acquire s hph ?_⟩
        intro j hj
        by_cases hij : j = i
        · subst hij
          rw [hlock j, hph] at hj
          exact absurd hj (by simp [inCritical])
        · rcases (by omega : i = 0 ∨ i = 1) with hi | hi <;> subst hi
          · have hj1 : j = 1 := by omega
            subst hj1
            exact fun hcontra => hne hcontra.symm
          · have hj0 : j = 0 := by omega
            subst hj0
            exact hne
    | locked => exact ⟨_, DbStep.readStep s hph⟩
    | readDone prev => exact ⟨_, DbStep.writeStep s prev hph⟩
    | written => exact ⟨_, DbStep.commitStep s hph⟩
    | committed => exact absurd hph hi

/-- Two concurrent inserts for different owners. -/
def pAB : Fin 2 → TxParams := fun i =>
  if i = 0 then
    { email := "a", tx_description := "coding", on_goal := true,
      seconds := 10, task := "Analytical", same_task := true }
  else
    { email := "b", tx_description := "reading", on_goal := true,
      seconds := 10, task := "Reading", same_task := false }

/-- Witness for `insert_atomicity` at the initial state of two transactions
for distinct owners. -/
theorem insert_atomicity_witness :
    DbReachable pAB [] (dbInit []) ∧
    (((pAB 0).email = (pAB 1).email →
      ¬(∃ a b, (dbInit []).tx 0 = TxPhase.readDone a ∧
               (dbInit []).tx 1 = TxPhase.readDone b)) ∧
     ((pAB 0).email ≠ (pAB 1).email →
      ∀ i, (dbInit []).tx i ≠ TxPhase.committed →
        ∃ s', DbStep pAB i (dbInit []) s')) :=
  ⟨Relation.ReflTransGen.refl,
   insert_atomicity pAB [] (dbInit []) Relation.ReflTransGen.refl⟩

end Reflections
